import Mathlib

set_option linter.unusedVariables false

/- Verification of the unsorted segment-sum operator of src/ops/segment_ops.ts
   against its natural-language specification.  The operator consumes a set of
   tensor primitives (transpose, gather, comparison, selection, broadcasting)
   and a kernel executor that live outside the verified source fragment; those
   collaborators are modelled from the specification, as noted on each of their
   definitions.  Everything else mirrors the source line by line. -/

/-- A dense multi-dimensional array: a shape together with the value stored at
each multi-index.  A multi-index is a list of coordinates, one per dimension;
the value function is unconstrained off the valid index range. -/
structure Tensor where
  shape : List Nat
  val : List Nat → Int

/-- A boolean tensor, the result type of comparison and logical operations. -/
structure BTensor where
  shape : List Nat
  val : List Nat → Bool

/-- An index is valid for a shape when it has one coordinate per dimension and
every coordinate is below the corresponding dimension size. -/
def validIdx (shape idx : List Nat) : Prop :=
  idx.length = shape.length ∧ ∀ p, p < shape.length → idx.getD p 0 < shape.getD p 0

/-- Extensional equality of tensors: same shape, same value at every valid index. -/
def TEq (a b : Tensor) : Prop :=
  a.shape = b.shape ∧ ∀ idx, validIdx a.shape idx → a.val idx = b.val idx

/-- Applies a list of dimension positions to a list, picking the entry at each
position (used for the shape of a transposed tensor). -/
def permSelect (perm idx : List Nat) : List Nat := perm.map (fun i => idx.getD i 0)

/-- Modelled from the spec: the array primitive transpose(array, permutation).
Dimension p of the result is dimension perm[p] of the input, so the value at a
result index j is read from the input index m with m[perm[p]] = j[p], i.e.
m[c] = j[position of c inside perm]. -/
def Tensor.transpose (x : Tensor) (perm : List Nat) : Tensor :=
  { shape := permSelect perm x.shape,
    val := fun j =>
      x.val ((List.range x.shape.length).map (fun c => j.getD (perm.indexOf c) 0)) }

/-- Modelled from the spec: the array primitive gather(array, indices, axis),
"selecting slices of an array at given integer positions along an axis".  The
dimension at the axis becomes the number of indices and coordinate i along it
reads the slice of the input at position indices[i]. -/
def gather (x : Tensor) (indices : List Int) (axis : Nat) : Tensor :=
  { shape := x.shape.set axis indices.length,
    val := fun j => x.val (j.set axis (indices.getD (j.getD axis 0) 0).toNat) }

/-- Modelled from the spec: the array primitive zerosLike(a). -/
def zerosLike (t : Tensor) : Tensor := { shape := t.shape, val := fun _ => 0 }

/-- Modelled from the spec: the array primitive onesLike(a). -/
def onesLike (t : Tensor) : Tensor := { shape := t.shape, val := fun _ => 1 }

/-- Modelled from the spec: elementwise equality of a tensor with a scalar
constant (the combination equal(a, scalarConstant(c)) of the primitives). -/
def equalScalar (t : Tensor) (c : Int) : BTensor :=
  { shape := t.shape, val := fun j => decide (t.val j = c) }

/-- Modelled from the spec: elementwiseCompareGE(a, scalar) on a 1-dimensional
integer tensor, which is how the source compares the segment ids with 0. -/
def greaterEqualScalar (indices : List Int) (c : Int) : BTensor :=
  { shape := [indices.length], val := fun j => decide (c ≤ indices.getD (j.headD 0) 0) }

/-- Modelled from the spec: zerosLike on a 1-dimensional integer tensor (the
segment-ids tensor is modelled as a plain list of integers). -/
def zerosLikeInt (l : List Int) : List Int := l.map (fun _ => 0)

/-- Modelled from the spec: elementwiseMax(a, b) on 1-dimensional integer
tensors of equal length. -/
def maximumInt (a b : List Int) : List Int := (a.zip b).map (fun p => max p.1 p.2)

/-- Modelled from the spec: expandTrailingDimension(a), "appending trailing
singleton dimensions": inserts a size-1 dimension after the last axis. -/
def expandDimsLast (b : BTensor) : BTensor :=
  { shape := b.shape ++ [1], val := fun j => b.val (j.take b.shape.length) }

/-- Right-aligns a shape to rank r by padding it with leading singleton
dimensions (the alignment rule of broadcasting). -/
def padShape (s : List Nat) (r : Nat) : List Nat := List.replicate (r - s.length) 1 ++ s

/-- Maps an index of a broadcast result to an index of one operand: the
operand's shape is right-aligned against the index and singleton dimensions
are clamped to coordinate 0. -/
def bcastIdx (s : List Nat) (j : List Nat) : List Nat :=
  (s.zip (j.drop (j.length - s.length))).map (fun p => if p.1 = 1 then 0 else p.2)

/-- Modelled from the spec: the broadcast-shape computation used by binary
primitives.  Shapes are right-aligned; paired dimensions must be equal or one
of them 1, otherwise the operation fails; the result takes the larger size. -/
def assertAndGetBroadcastShape (a b : List Nat) : Option (List Nat) :=
  let r := max a.length b.length
  let pa := padShape a r
  let pb := padShape b r
  if (pa.zip pb).all (fun p => p.1 == p.2 || p.1 == 1 || p.2 == 1) then
    some ((pa.zip pb).map (fun p => max p.1 p.2))
  else
    none

/-- Modelled from the spec: logicalAnd(a, b) with broadcasting; fails when the
shapes are not broadcast-compatible. -/
def logicalAnd (a b : BTensor) : Option BTensor :=
  (assertAndGetBroadcastShape a.shape b.shape).map (fun sh =>
    { shape := sh, val := fun j => a.val (bcastIdx a.shape j) && b.val (bcastIdx b.shape j) })

/-- Modelled from the spec: selectWhere(mask, a, b); the mask must be shaped
like the data operands. -/
def whereOp (cond : BTensor) (a b : Tensor) : Option Tensor :=
  if cond.shape = a.shape then
    some { shape := a.shape, val := fun j => if cond.val j then a.val j else b.val j }
  else
    none

/-- The body of the source loop
`for (let i = 0; i < gathered.rank - isPositive.rank; ++i) { isPositive = expandDims(isPositive, -1); }`,
written with explicit fuel so the recursion is structural.  The loop condition
compares the counter with `g - rank(b)` re-evaluated each iteration, exactly as
the source expression does.  Each iteration increments the counter, and the
condition requires the counter to stay below g, so g units of fuel are never
exhausted before the condition fails. -/
def expandIters : Nat → Nat → Nat → BTensor → BTensor
  | 0, _, _, b => b
  | fuel + 1, g, i, b =>
    if i < g - b.shape.length then expandIters fuel g (i + 1) (expandDimsLast b) else b

/-- The source rank-expansion loop, started at counter 0 with fuel g. -/
def expandLoop (g : Nat) (b : BTensor) : BTensor := expandIters g g 0 b

/-- Line 84-85 of the source: maximum(indices, zerosLike(indices)). -/
def zeroClippedIndices (indices : List Int) : List Int :=
  maximumInt indices (zerosLikeInt indices)

/-- Lines 87-93 of the source: the mask handed to the final where.  Builds
greaterEqual(indices, 0), runs the rank-expansion loop against the rank of the
gathered tensor, and ANDs the result with onesLike(gathered).equal(1). -/
def finalMask (x : Tensor) (indices : List Int) (axis : Nat) : Option BTensor :=
  let gathered := gather x (zeroClippedIndices indices) axis
  let isPositive := expandLoop gathered.shape.length (greaterEqualScalar indices 0)
  let bools := equalScalar (onesLike gathered) 1
  logicalAnd isPositive bools

/-- Lines 79-96 of the source: gatherDropNegatives.  Gathers x at the
zero-clipped segment ids along the axis and selects, through the broadcast
mask, the gathered value at positions with a non-negative id and zero at the
rest.  The result is optional because the broadcast inside the mask
construction can fail. -/
def gatherDropNegatives (x : Tensor) (indices : List Int) (axis : Nat) : Option Tensor :=
  let gathered := gather x (zeroClippedIndices indices) axis
  match finalMask x indices axis with
  | none => none
  | some isPositive => whereOp isPositive gathered (zerosLike gathered)

/-- Modelled from the spec: the permutation that "moves axis to position 0
while preserving the relative order of all other dimensions". -/
def frontPerm (k r : Nat) : List Nat := k :: (List.range r).filter (fun i => i != k)

/-- Modelled from the spec: axis_util.getAxesPermutation for a single reduction
axis.  "If axis == 0, permutation is absent ... Otherwise, permutation is
computed such that applying it moves axis to position 0 while preserving the
relative order of all other dimensions." -/
def getAxesPermutation (axis rank : Nat) : Option (List Nat) :=
  if axis = 0 then none else some (frontPerm axis rank)

/-- Modelled from the spec: axis_util.getUndoAxesPermutation, "the
permutation's inverse": entry perm[p] of the result is p. -/
def getUndoAxesPermutation (perm : List Nat) : List Nat :=
  (List.range perm.length).map (fun c => perm.indexOf c)

/-- Modelled from the spec: axis_util.getInnerMostAxes, which the spec does not
describe; the n innermost axes of a rank-r array are r-n, ..., r-1. -/
def getInnerMostAxes (n rank : Nat) : List Nat := (List.range n).map (fun i => rank - n + i)

/-- Lines 56-60 of the source: the tensor handed to the kernel executor.  With
axis = 0 the computed permutation is absent, so no transpose is applied. -/
def permutedInput (x : Tensor) : Tensor :=
  match getAxesPermutation 0 x.shape.length with
  | none => x
  | some p => x.transpose p

/-- Lines 56-61 of the source: the axis variable captured by the gradient
closure.  It starts at 0 and is reassigned to the innermost axis only when a
permutation was computed. -/
def capturedAxis (x : Tensor) : Nat :=
  match getAxesPermutation 0 x.shape.length with
  | none => 0
  | some _ => (getInnerMostAxes 1 x.shape.length).getD 0 0

/-- The gradient registration performed by the runKernel call: the backward
function is recorded against the named input map {permutedX}. -/
structure GradRegistration where
  key : String
  input : Tensor
  grad : Tensor → Option Tensor

/-- Lines 62-71 of the source: the gradient closure registered with the engine.
It is keyed by "permutedX", holds the permuted input, and reconstructs the
gradient through gatherDropNegatives at the captured axis. -/
def registeredGradient (x : Tensor) (segmentIds : List Int) : GradRegistration :=
  { key := "permutedX",
    input := permutedInput x,
    grad := fun dy => gatherDropNegatives dy segmentIds (capturedAxis x) }

/-- Modelled from the spec: the external kernel executor
backend.unsortedSegmentSum.  It "returns an array of shape [numSegments, ...]
where slot s equals the elementwise sum of every input slice i with
segmentIds[i] == s"; the sum is realised by accumulating every contributing
slice in input order. -/
def backendUnsortedSegmentSum (x : Tensor) (segmentIds : List Int) (numSegments : Nat) :
    Tensor :=
  { shape := numSegments :: x.shape.tail,
    val := fun idx =>
      (List.range segmentIds.length).foldl
        (fun acc i =>
          if segmentIds.getD i 0 = (idx.headD 0 : Int) then acc + x.val (i :: idx.tail)
          else acc)
        0 }

/-- The dtype tags relevant to the operator's validation. -/
inductive DType where
  | float32
  | int32
deriving DecidableEq

/-- The segment-ids argument: a 1-dimensional integer tensor with a dtype tag. -/
structure SegIds where
  dtype : DType
  vals : List Int

/-- Modelled from the spec: util.isInt on a numeric argument; true exactly when
the number is an integer. -/
def isInt (n : Rat) : Bool := n.den == 1

/-- The distinct validation errors of the operator (spec section 7:
missing required argument, wrong dtype for segment ids, non-integer segment
count). -/
inductive SegError where
  | missingTensor (argName : String)
  | segmentIdsNotInt32
  | numSegmentsNotInt
deriving DecidableEq

/-- Lines 48-76 of the source: unsortedSegmentSum, parametrised by the kernel
executor it dispatches to.  Validation mirrors the source order: argument
presence of x then segmentIds, the int32 dtype of segmentIds, the integrality
of numSegments; only then is the kernel invoked on the permuted input, and the
result is un-permuted when a permutation was computed. -/
def unsortedSegmentSumWith (backendKernel : Tensor → List Int → Nat → Tensor)
    (x? : Option Tensor) (segmentIds? : Option SegIds) (numSegments : Rat) :
    Except SegError Tensor :=
  match x? with
  | none => Except.error (SegError.missingTensor "x")
  | some x =>
    match segmentIds? with
    | none => Except.error (SegError.missingTensor "segmentIds")
    | some segmentIds =>
      if segmentIds.dtype = DType.int32 then
        if isInt numSegments then
          let result := backendKernel (permutedInput x) segmentIds.vals numSegments.num.toNat
          match getAxesPermutation 0 x.shape.length with
          | none => Except.ok result
          | some p => Except.ok (result.transpose (getUndoAxesPermutation p))
        else Except.error SegError.numSegmentsNotInt
      else Except.error SegError.segmentIdsNotInt32

/-- The operator as shipped: dispatching to the (spec-modelled) backend kernel. -/
def SegmentOps.unsortedSegmentSum (x? : Option Tensor) (segmentIds? : Option SegIds)
    (numSegments : Rat) : Except SegError Tensor :=
  unsortedSegmentSumWith backendUnsortedSegmentSum x? segmentIds? numSegments

/-- Modelled from the spec: the grouping semantics of section 4.2 stated along
an arbitrary axis k; output slot s along axis k accumulates every input slice
whose segment id is s, the other coordinates passing through unchanged. -/
def segmentSumAlongAxis (k : Nat) (x : Tensor) (segmentIds : List Int) (numSegments : Nat) :
    Tensor :=
  { shape := x.shape.set k numSegments,
    val := fun idx =>
      (List.range segmentIds.length).foldl
        (fun acc i =>
          if segmentIds.getD i 0 = (idx.getD k 0 : Int) then acc + x.val (idx.set k i)
          else acc)
        0 }

/-- The in-bounds condition for a gather call: every index is non-negative and
below the size of the gathered tensor along the gather axis. -/
def gatherInBounds (x : Tensor) (indices : List Int) (axis : Nat) : Prop :=
  ∀ v ∈ indices, 0 ≤ v ∧ v.toNat < x.shape.getD axis 0

/-- A rank-3 upstream gradient of shape [1, 2, 1] filled with ones; it is the
gradient shape produced by a forward call on an input of shape [2, 2, 1] with
two segment ids and numSegments = 1. -/
def dyBug : Tensor := { shape := [1, 2, 1], val := fun _ => 1 }

/-- A rank-1 upstream gradient with no slots (numSegments = 0). -/
def dyEmpty : Tensor := { shape := [0], val := fun _ => 0 }

/-- A rank-1 upstream gradient with three slots. -/
def dyThree : Tensor := { shape := [3], val := fun j => (j.headD 0 : Int) + 5 }

/-- A rank-2 tensor of shape [2, 3]. -/
def exRank2 : Tensor := { shape := [2, 3], val := fun _ => 0 }

/-- The rank-1 input of the spec's concrete scenario, x = [1, 2, 3, 4]. -/
def xFour : Tensor :=
  { shape := [4], val := fun j => ([1, 2, 3, 4] : List Int).getD (j.headD 0) 0 }

/-- The segment ids of the spec's concrete scenario, [1, 2, 0, 1] as int32. -/
def idsFour : SegIds := { dtype := DType.int32, vals := [1, 2, 0, 1] }

/-- A segment-ids tensor carrying the wrong dtype. -/
def idsFloat : SegIds := { dtype := DType.float32, vals := [0] }

/-- A rank-2 tensor of shape [2, 2] with distinct entries. -/
def xTwoTwo : Tensor :=
  { shape := [2, 2], val := fun j => 2 * (j.getD 0 0 : Int) + (j.getD 1 0 : Int) }

/-- The non-integer number one half, as a numSegments argument. -/
def halfRat : Rat := { num := 1, den := 2 }

theorem zeroClipped_eq_map (ids : List Int) :
    zeroClippedIndices ids = ids.map (fun v => max v 0) := by
  induction ids with
  | nil => rfl
  | cons a l ih =>
    simp only [zeroClippedIndices, maximumInt, zerosLikeInt, List.map_cons,
      List.zip_cons_cons] at *
    rw [ih]

theorem foldl_add_if_filter (P : Nat → Prop) [DecidablePred P] (f : Nat → Int)
    (l : List Nat) : ∀ a : Int,
    l.foldl (fun acc i => if P i then acc + f i else acc) a
      = a + ((l.filter (fun i => decide (P i))).map f).sum := by
  induction l with
  | nil => intro a; simp
  | cons head tail ih =>
    intro a
    by_cases h : P head
    · simp [List.filter_cons, h, ih, add_assoc]
    · simp [List.filter_cons, h, ih]

/-- C5: since the reduction axis is always 0, the computed permutation is
absent, no transpose happens, and the tensor handed to the kernel executor is
the input itself. -/
theorem unsortedSegmentSum_no_permutation :
    ∀ x : Tensor, getAxesPermutation 0 x.shape.length = none ∧ permutedInput x = x :=
  fun _ => ⟨rfl, rfl⟩

/-- C10 (amended): for every input, of any rank, the axis captured by the
registered gradient closure is 0; the gradient is registered under the key
"permutedX" for the permuted tensor, which equals the original input. -/
theorem registeredGradient_axis_zero :
    ∀ (x : Tensor) (segmentIds : List Int),
      capturedAxis x = 0 ∧
      (registeredGradient x segmentIds).key = "permutedX" ∧
      (registeredGradient x segmentIds).input = x ∧
      (registeredGradient x segmentIds).grad
        = fun dy => gatherDropNegatives dy segmentIds 0 :=
  fun _ _ => ⟨rfl, rfl, rfl, rfl⟩

/-- C10 (counterexample): on a rank-2 input the captured axis is 0, not
rank - 1 = 1 as the claim states. -/
theorem registeredGradient_axis_cex :
    2 ≤ exRank2.shape.length ∧ capturedAxis exRank2 ≠ exRank2.shape.length - 1 := by
  decide

/-- C2 (failing input): on the rank-3 upstream gradient dyBug with segment ids
[-1, 0], position [0, 1, 0] lies in the slice of the id -1 input element, yet
the reconstructed gradient there is 1, not 0: the mask rank-expansion loop
stops at rank 2, so broadcasting aligns the mask with axis 1 instead of
axis 0. -/
theorem gatherDropNegatives_negative_id_bug :
    (([-1, 0] : List Int).getD 0 0 < 0) ∧
    (gatherDropNegatives dyBug [-1, 0] 0).map (fun r => r.val [0, 1, 0]) = some 1 := by
  decide

/-- C3 (failing input): on the same rank-3 upstream gradient, position
[1, 0, 0] has segment id 0 with dy slice value dy[0, 0, 0] = 1, yet the
reconstruction returns 0 there: the misaligned mask reads the id of position 0
instead. -/
theorem gatherDropNegatives_gather_bug :
    (([-1, 0] : List Int).getD 1 0 = 0) ∧
    dyBug.val [0, 0, 0] = 1 ∧
    (gatherDropNegatives dyBug [-1, 0] 0).map (fun r => r.val [1, 0, 0]) = some 0 := by
  decide

/-- C8 (failing input): the mask handed to the final where is true at position
[0, 1, 0] although broadcasting segmentIds >= 0 along dimension 0 to that
position is false (the id of input element 0 is -1): with the under-expanded
rank-2 mask, the AND against the all-true rank-3 tensor right-aligns the mask
against axis 1, so it is not a pure axis-0 broadcast device. -/
theorem finalMask_misalignment_bug :
    (decide (0 ≤ ([-1, 0] : List Int).getD 0 0) = false) ∧
    (finalMask dyBug [-1, 0] 0).map (fun m => m.val [0, 1, 0]) = some true := by
  decide

/-- C6: a missing x, a missing segmentIds, a non-int32 segmentIds dtype and a
non-integer numSegments each produce their own validation error, for every
kernel executor alike -- so the executor is never consulted on such inputs --
and the errors are pairwise distinct. -/
theorem unsortedSegmentSum_validation_errors :
    (∀ (k : Tensor → List Int → Nat → Tensor) (segmentIds? : Option SegIds) (n : Rat),
        unsortedSegmentSumWith k none segmentIds? n
          = Except.error (SegError.missingTensor "x")) ∧
    (∀ (k : Tensor → List Int → Nat → Tensor) (x : Tensor) (n : Rat),
        unsortedSegmentSumWith k (some x) none n
          = Except.error (SegError.missingTensor "segmentIds")) ∧
    (∀ (k : Tensor → List Int → Nat → Tensor) (x : Tensor) (ids : SegIds) (n : Rat),
        ids.dtype ≠ DType.int32 →
        unsortedSegmentSumWith k (some x) (some ids) n
          = Except.error SegError.segmentIdsNotInt32) ∧
    (∀ (k : Tensor → List Int → Nat → Tensor) (x : Tensor) (ids : SegIds) (n : Rat),
        ids.dtype = DType.int32 → isInt n = false →
        unsortedSegmentSumWith k (some x) (some ids) n
          = Except.error SegError.numSegmentsNotInt) ∧
    (SegError.missingTensor "x" ≠ SegError.segmentIdsNotInt32 ∧
     SegError.missingTensor "x" ≠ SegError.numSegmentsNotInt ∧
     SegError.missingTensor "segmentIds" ≠ SegError.segmentIdsNotInt32 ∧
     SegError.missingTensor "segmentIds" ≠ SegError.numSegmentsNotInt ∧
     SegError.segmentIdsNotInt32 ≠ SegError.numSegmentsNotInt ∧
     SegError.missingTensor "x" ≠ SegError.missingTensor "segmentIds") := by
  refine ⟨fun k s n => rfl, fun k x n => rfl, ?_, ?_, by decide⟩
  · intro k x ids n h
    simp [unsortedSegmentSumWith, h]
  · intro k x ids n h1 h2
    simp [unsortedSegmentSumWith, h1, h2]

theorem unsortedSegmentSum_validation_errors_witness :
    SegmentOps.unsortedSegmentSum none (some idsFour) 1
        = Except.error (SegError.missingTensor "x") ∧
    SegmentOps.unsortedSegmentSum (some xFour) none 1
        = Except.error (SegError.missingTensor "segmentIds") ∧
    SegmentOps.unsortedSegmentSum (some xFour) (some idsFloat) 1
        = Except.error SegError.segmentIdsNotInt32 ∧
    SegmentOps.unsortedSegmentSum (some xFour) (some idsFour) halfRat
        = Except.error SegError.numSegmentsNotInt :=
  ⟨unsortedSegmentSum_validation_errors.1 backendUnsortedSegmentSum (some idsFour) 1,
   unsortedSegmentSum_validation_errors.2.1 backendUnsortedSegmentSum xFour 1,
   unsortedSegmentSum_validation_errors.2.2.1 backendUnsortedSegmentSum xFour idsFloat 1
     (by decide),
   unsortedSegmentSum_validation_errors.2.2.2.1 backendUnsortedSegmentSum xFour idsFour
     halfRat rfl (by decide)⟩

/-- C1: for every array, int32 segment ids and integer segment count, slot s of
the operator's output is the elementwise sum of exactly those input slices i
with segmentIds[i] = s, and it is zero when no slice maps to s (the kernel
executor axiomatized as the spec describes it, realised as in-order
accumulation). -/
theorem unsortedSegmentSum_grouping (x : Tensor) (ids : SegIds) (m : Nat)
    (hdt : ids.dtype = DType.int32) (s : Nat) (rest : List Nat) :
    ∃ r, SegmentOps.unsortedSegmentSum (some x) (some ids) (m : Rat) = Except.ok r ∧
      r.val (s :: rest)
        = (((List.range ids.vals.length).filter
              (fun i => decide (ids.vals.getD i 0 = ((s : Nat) : Int)))).map
            (fun i => x.val (i :: rest))).sum ∧
      (((List.range ids.vals.length).filter
            (fun i => decide (ids.vals.getD i 0 = ((s : Nat) : Int)))) = [] →
        r.val (s :: rest) = 0) := by
  obtain ⟨dt, vals⟩ := ids
  cases hdt
  have hval : (backendUnsortedSegmentSum x vals ((m : Rat)).num.toNat).val (s :: rest)
      = (((List.range vals.length).filter
            (fun i => decide (vals.getD i 0 = ((s : Nat) : Int)))).map
          (fun i => x.val (i :: rest))).sum := by
    have h2 := foldl_add_if_filter (fun i => vals.getD i 0 = ((s : Nat) : Int))
      (fun i => x.val (i :: rest)) (List.range vals.length) 0
    simpa [backendUnsortedSegmentSum] using h2
  refine ⟨backendUnsortedSegmentSum x vals ((m : Rat)).num.toNat, rfl, hval, fun h => ?_⟩
  rw [hval, h]
  simp

theorem unsortedSegmentSum_grouping_witness :
    ∃ r, SegmentOps.unsortedSegmentSum (some xFour) (some idsFour) ((3 : Nat) : Rat)
        = Except.ok r ∧
      r.val (1 :: [])
        = (((List.range idsFour.vals.length).filter
              (fun i => decide (idsFour.vals.getD i 0 = ((1 : Nat) : Int)))).map
            (fun i => xFour.val (i :: []))).sum ∧
      (((List.range idsFour.vals.length).filter
            (fun i => decide (idsFour.vals.getD i 0 = ((1 : Nat) : Int)))) = [] →
        r.val (1 :: []) = 0) :=
  unsortedSegmentSum_grouping xFour idsFour 3 rfl 1 []

/-- C4: for every input, int32 segment ids and integer segment count, the
operator's output has shape numSegments followed by the input's trailing
dimensions in their original order. -/
theorem unsortedSegmentSum_output_shape (x : Tensor) (ids : SegIds) (m : Nat)
    (hdt : ids.dtype = DType.int32) :
    ∃ r, SegmentOps.unsortedSegmentSum (some x) (some ids) (m : Rat) = Except.ok r ∧
      r.shape = m :: x.shape.tail := by
  obtain ⟨dt, vals⟩ := ids
  cases hdt
  exact ⟨_, rfl, rfl⟩

theorem unsortedSegmentSum_output_shape_witness :
    ∃ r, SegmentOps.unsortedSegmentSum (some xFour) (some idsFour) ((3 : Nat) : Rat)
        = Except.ok r ∧ r.shape = 3 :: xFour.shape.tail :=
  unsortedSegmentSum_output_shape xFour idsFour 3 rfl

/-- C7 (amended): every index handed to the backward gather is the zero-clip
max(segmentIds[i], 0), hence non-negative; and whenever every segment id is
below dy's size along the gather axis and that size is positive, the gather is
in bounds.  (Positivity is needed: with a size-0 axis and a negative id the
clipped index 0 is itself out of bounds.) -/
theorem zeroClipped_gather_inBounds (ids : List Int) (dy : Tensor) (axis : Nat)
    (hpos : 0 < dy.shape.getD axis 0)
    (hlt : ∀ v ∈ ids, v < (dy.shape.getD axis 0 : Int)) :
    zeroClippedIndices ids = ids.map (fun v => max v 0) ∧
    (∀ v ∈ zeroClippedIndices ids, 0 ≤ v) ∧
    gatherInBounds dy (zeroClippedIndices ids) axis := by
  refine ⟨zeroClipped_eq_map ids, ?_, ?_⟩
  · intro v hv
    rw [zeroClipped_eq_map] at hv
    obtain ⟨u, hu, rfl⟩ := List.mem_map.mp hv
    exact le_max_right u 0
  · intro v hv
    rw [zeroClipped_eq_map] at hv
    obtain ⟨u, hu, rfl⟩ := List.mem_map.mp hv
    refine ⟨le_max_right u 0, ?_⟩
    rw [Int.toNat_lt' (Nat.pos_iff_ne_zero.mp hpos)]
    have := hlt u hu
    have hcast : (0 : Int) < (dy.shape.getD axis 0 : Int) := by exact_mod_cast hpos
    rcases max_cases u (0 : Int) with ⟨heq, _⟩ | ⟨heq, _⟩ <;> rw [heq] <;> omega

theorem zeroClipped_gather_inBounds_witness :
    zeroClippedIndices [-1, 2] = ([-1, 2] : List Int).map (fun v => max v 0) ∧
    (∀ v ∈ zeroClippedIndices [-1, 2], 0 ≤ v) ∧
    gatherInBounds dyThree (zeroClippedIndices [-1, 2]) 0 :=
  zeroClipped_gather_inBounds [-1, 2] dyThree 0 (by decide) (by decide)

/-- C7 (counterexample): with dy of shape [0] and segment ids [-1], every id is
below dy's size 0 along axis 0 (as an integer comparison), yet the clipped
gather index 0 is out of bounds. -/
theorem zeroClipped_gather_oob_cex :
    (∀ v ∈ ([-1] : List Int), v < (dyEmpty.shape.getD 0 0 : Int)) ∧
    ¬ gatherInBounds dyEmpty (zeroClippedIndices [-1]) 0 := by
  unfold gatherInBounds
  decide

theorem getD_of_lt {α : Type} (l : List α) (d : α) (p : Nat) (h : p < l.length) :
    l.getD p d = l[p] := by
  rw [List.getD_eq_getElem?_getD, List.getElem?_eq_getElem h]
  rfl

theorem indexOf_range' (s n i : Nat) (h : i < n) :
    (List.range' s n).indexOf (s + i) = i := by
  induction n generalizing s i with
  | zero => omega
  | succ n ih =>
    rw [List.range'_succ]
    cases i with
    | zero => simp [List.indexOf_cons_self]
    | succ i =>
      rw [List.indexOf_cons_ne _ (by omega)]
      rw [show s + (i + 1) = (s + 1) + i by omega]
      rw [ih (s + 1) i (by omega)]

theorem indexOf_range (k c : Nat) (h : c < k) : (List.range k).indexOf c = c := by
  have h2 := indexOf_range' 0 k c h
  rw [List.range_eq_range']
  simpa using h2

theorem range_split (k r : Nat) (hk : k < r) :
    List.range r = (List.range k ++ [k]) ++ List.range' (k + 1) (r - (k + 1)) := by
  rw [← List.range_succ, List.range'_eq_map_range, ← List.range_add]
  congr 1
  omega

theorem filter_ne_eq_append (k r : Nat) (hk : k < r) :
    (List.range r).filter (fun i => i != k)
      = List.range k ++ List.range' (k + 1) (r - (k + 1)) := by
  rw [range_split k r hk, List.filter_append, List.filter_append]
  have h2 : (List.range k).filter (fun i => i != k) = List.range k := by
    rw [List.filter_eq_self]
    intro a ha
    rw [List.mem_range] at ha
    simp only [bne_iff_ne, ne_eq, decide_eq_true_eq]
    omega
  have h3 : ([k].filter (fun i => i != k)) = ([] : List Nat) := by simp
  have h4 : (List.range' (k + 1) (r - (k + 1))).filter (fun i => i != k)
      = List.range' (k + 1) (r - (k + 1)) := by
    rw [List.filter_eq_self]
    intro a ha
    rw [List.mem_range'_1] at ha
    simp only [bne_iff_ne, ne_eq, decide_eq_true_eq]
    omega
  rw [h2, h3, h4, List.append_nil]

theorem frontPerm_eq (k r : Nat) (hk : k < r) :
    frontPerm k r = k :: (List.range k ++ List.range' (k + 1) (r - (k + 1))) := by
  rw [frontPerm, filter_ne_eq_append k r hk]

theorem frontPerm_length (k r : Nat) (hk : k < r) : (frontPerm k r).length = r := by
  rw [frontPerm_eq k r hk]
  simp only [List.length_cons, List.length_append, List.length_range, List.length_range']
  omega

theorem frontPerm_indexOf (k r c : Nat) (hk : k < r) (hc : c < r) :
    (frontPerm k r).indexOf c = if c = k then 0 else if c < k then c + 1 else c := by
  rw [frontPerm_eq k r hk]
  by_cases h1 : c = k
  · subst h1
    rw [List.indexOf_cons_self]
    simp
  · rw [List.indexOf_cons_ne _ (Ne.symm h1)]
    by_cases h2 : c < k
    · rw [List.indexOf_append_of_mem (by rw [List.mem_range]; omega)]
      rw [indexOf_range k c h2]
      rw [if_neg h1, if_pos h2]
    · rw [List.indexOf_append_of_not_mem (by intro hmem; rw [List.mem_range] at hmem; omega)]
      have h3 := indexOf_range' (k + 1) (r - (k + 1)) (c - (k + 1)) (by omega)
      rw [show (k + 1) + (c - (k + 1)) = c by omega] at h3
      rw [h3, List.length_range]
      rw [if_neg h1, if_neg h2]
      omega

theorem undo_eq (k r : Nat) (hk : k < r) :
    getUndoAxesPermutation (frontPerm k r)
      = (List.range' 1 k ++ [0]) ++ List.range' (k + 1) (r - (k + 1)) := by
  simp only [getUndoAxesPermutation, frontPerm_length k r hk]
  rw [range_split k r hk]
  rw [List.map_append, List.map_append]
  congr 1
  · congr 1
    · rw [List.range'_eq_map_range]
      apply List.map_congr_left
      intro a ha
      rw [List.mem_range] at ha
      rw [frontPerm_indexOf k r a hk (by omega)]
      rw [if_neg (by omega), if_pos ha]
      omega
    · simp only [List.map_cons, List.map_nil]
      rw [frontPerm_indexOf k r k hk hk]
      simp
  · have hpt : ∀ a ∈ List.range' (k + 1) (r - (k + 1)), (frontPerm k r).indexOf a = a := by
      intro a ha
      rw [List.mem_range'_1] at ha
      rw [frontPerm_indexOf k r a hk (by omega)]
      rw [if_neg (by omega), if_neg (by omega)]
    rw [List.map_congr_left hpt]
    simp

theorem undo_indexOf (k r c : Nat) (hk : k < r) (hc : c < r) :
    (getUndoAxesPermutation (frontPerm k r)).indexOf c
      = if c = 0 then k else if c ≤ k then c - 1 else c := by
  rw [undo_eq k r hk]
  by_cases h1 : c = 0
  · subst h1
    rw [List.indexOf_append_of_mem (by simp)]
    rw [List.indexOf_append_of_not_mem (by intro hmem; rw [List.mem_range'_1] at hmem; omega)]
    simp [List.length_range', List.indexOf_cons_self]
  · by_cases h2 : c ≤ k
    · rw [List.indexOf_append_of_mem
        (by rw [List.mem_append, List.mem_range'_1]; left; omega)]
      rw [List.indexOf_append_of_mem (by rw [List.mem_range'_1]; omega)]
      have h3 := indexOf_range' 1 k (c - 1) (by omega)
      rw [show 1 + (c - 1) = c by omega] at h3
      rw [h3]
      rw [if_neg h1, if_pos h2]
    · rw [List.indexOf_append_of_not_mem
        (by intro hmem; rw [List.mem_append, List.mem_range'_1] at hmem
            rcases hmem with h | h
            · omega
            · rw [List.mem_singleton] at h; omega)]
      have h3 := indexOf_range' (k + 1) (r - (k + 1)) (c - (k + 1)) (by omega)
      rw [show (k + 1) + (c - (k + 1)) = c by omega] at h3
      rw [h3]
      simp only [List.length_append, List.length_range', List.length_cons, List.length_nil]
      rw [if_neg h1, if_neg h2]
      omega

theorem others_getD (k r q : Nat) (hk : k < r) (hq : q < r - 1) :
    (List.range k ++ List.range' (k + 1) (r - (k + 1))).getD q 0
      = if q < k then q else q + 1 := by
  by_cases h : q < k
  · rw [List.getD_eq_getElem?_getD, List.getElem?_append_left (by rw [List.length_range]; exact h),
      List.getElem?_range h]
    simp [h]
  · rw [List.getD_eq_getElem?_getD,
      List.getElem?_append_right (by rw [List.length_range]; omega)]
    rw [List.length_range]
    rw [List.getElem?_range' (k + 1) 1 (by omega : q - k < r - (k + 1))]
    simp only [Option.getD_some, if_neg h]
    omega

theorem others_map_getD (k r q : Nat) (f : Nat → Nat) (hk : k < r) (hq : q < r - 1) :
    ((List.range k ++ List.range' (k + 1) (r - (k + 1))).map f).getD q 0
      = f (if q < k then q else q + 1) := by
  have hlen : (List.range k ++ List.range' (k + 1) (r - (k + 1))).length = r - 1 := by
    simp only [List.length_append, List.length_range, List.length_range']
    omega
  rw [getD_of_lt _ _ q (by rw [List.length_map, hlen]; exact hq)]
  rw [List.getElem_map]
  congr 1
  have h2 := others_getD k r q hk hq
  rw [getD_of_lt _ _ q (by rw [hlen]; exact hq)] at h2
  exact h2

theorem range1_map_getD {α : Type} (r q : Nat) (g : Nat → α) (d : α) (hq : q < r - 1) :
    ((List.range' 1 (r - 1)).map g).getD q d = g (q + 1) := by
  rw [getD_of_lt _ _ q (by rw [List.length_map, List.length_range']; exact hq)]
  rw [List.getElem_map]
  congr 1
  rw [List.getElem_range']
  omega

theorem map_range_ite_eq_set (j : List Nat) (r k i : Nat) (hlen : j.length = r)
    (hk : k < r) :
    (List.range r).map (fun c => if c = k then i else j.getD c 0) = j.set k i := by
  apply List.ext_getElem
  · simp [hlen]
  · intro p h1 h2
    simp only [List.getElem_map, List.getElem_range, List.getElem_set]
    by_cases h : p = k
    · subst h
      simp
    · rw [if_neg h, if_neg (fun hh => h hh.symm)]
      rw [getD_of_lt _ _ p (by simp at h1; omega)]

theorem jtail_getD (r q k : Nat) (idx : List Nat) (hq : q < r - 1) :
    ((List.range' 1 (r - 1)).map
        (fun c => idx.getD (if c = 0 then k else if c ≤ k then c - 1 else c) 0)).getD q 0
      = idx.getD (if q + 1 = 0 then k else if q + 1 ≤ k then q + 1 - 1 else q + 1) 0 :=
  range1_map_getD r q _ 0 hq

/-- C9: reducing along an arbitrary axis k (the grouping semantics stated along
axis k) produces the same tensor as transposing axis k of the input to the
front, reducing along axis 0 with the kernel executor, and transposing the
result back with the inverse permutation. -/
theorem segmentSum_axis_conjugation (x : Tensor) (ids : List Int) (n k : Nat)
    (hk : k < x.shape.length) :
    TEq (segmentSumAlongAxis k x ids n)
      ((backendUnsortedSegmentSum (x.transpose (frontPerm k x.shape.length)) ids n).transpose
        (getUndoAxesPermutation (frontPerm k x.shape.length))) := by
  have hYshape :
      (backendUnsortedSegmentSum (x.transpose (frontPerm k x.shape.length)) ids n).shape
        = n :: (List.range k ++ List.range' (k + 1) (x.shape.length - (k + 1))).map
            (fun i => x.shape.getD i 0) := by
    show n :: (permSelect (frontPerm k x.shape.length) x.shape).tail = _
    rw [frontPerm_eq k x.shape.length hk]
    rfl
  have hYlen :
      (backendUnsortedSegmentSum (x.transpose (frontPerm k x.shape.length)) ids n).shape.length
        = x.shape.length := by
    rw [hYshape]
    simp only [List.length_cons, List.length_map, List.length_append, List.length_range,
      List.length_range']
    omega
  constructor
  · show x.shape.set k n
        = permSelect (getUndoAxesPermutation (frontPerm k x.shape.length))
            (backendUnsortedSegmentSum (x.transpose (frontPerm k x.shape.length)) ids n).shape
    apply List.ext_getElem
    · simp only [List.length_set, permSelect, List.length_map, getUndoAxesPermutation,
        List.length_range, frontPerm_length k x.shape.length hk]
    · intro p h1 h2
      have hp : p < x.shape.length := by
        have h3 : p < (x.shape.set k n).length := h1
        rw [List.length_set] at h3
        exact h3
      rw [List.getElem_set]
      simp only [permSelect, getUndoAxesPermutation, List.getElem_map, List.getElem_range]
      rw [frontPerm_indexOf k x.shape.length p hk hp]
      rw [hYshape]
      rcases Nat.lt_trichotomy p k with hpk | hpk | hpk
      · have e1 : ¬(k = p) := by omega
        have e2 : ¬(p = k) := by omega
        rw [if_neg e1, if_neg e2, if_pos hpk]
        rw [List.getD_cons_succ]
        rw [others_map_getD k x.shape.length p (fun i => x.shape.getD i 0) hk (by omega)]
        rw [if_pos hpk]
        exact (getD_of_lt x.shape 0 p hp).symm
      · subst hpk
        rw [if_pos rfl, if_pos rfl]
        rw [List.getD_cons_zero]
      · have e1 : ¬(k = p) := by omega
        have e2 : ¬(p = k) := by omega
        have e3 : ¬(p < k) := by omega
        rw [if_neg e1, if_neg e2, if_neg e3]
        obtain ⟨q, rfl⟩ : ∃ q, p = q + 1 := ⟨p - 1, by omega⟩
        rw [List.getD_cons_succ]
        rw [others_map_getD k x.shape.length q (fun i => x.shape.getD i 0) hk (by omega)]
        rw [if_neg (show ¬(q < k) by omega)]
        exact (getD_of_lt x.shape 0 (q + 1) hp).symm
  · intro idx hv
    have hlen_idx : idx.length = x.shape.length := by
      have h1 : idx.length = (x.shape.set k n).length := hv.1
      rw [List.length_set] at h1
      exact h1
    have hsplit0 : List.range x.shape.length = 0 :: List.range' 1 (x.shape.length - 1) := by
      have h0 : x.shape.length = (x.shape.length - 1) + 1 := by omega
      rw [List.range_eq_range']
      conv_lhs => rw [h0]
      rw [List.range'_succ]
    have hJ : (List.range
          (backendUnsortedSegmentSum (x.transpose (frontPerm k x.shape.length)) ids n).shape.length).map
            (fun c => idx.getD ((getUndoAxesPermutation (frontPerm k x.shape.length)).indexOf c) 0)
        = idx.getD k 0 :: (List.range' 1 (x.shape.length - 1)).map
            (fun c => idx.getD (if c = 0 then k else if c ≤ k then c - 1 else c) 0) := by
      rw [hYlen, hsplit0, List.map_cons]
      congr 1
      · rw [undo_indexOf k x.shape.length 0 hk (by omega)]
        simp
      · apply List.map_congr_left
        intro c hc
        rw [List.mem_range'_1] at hc
        rw [undo_indexOf k x.shape.length c hk (by omega)]
    have hinner : ∀ i : Nat,
        (x.transpose (frontPerm k x.shape.length)).val
            (i :: (List.range' 1 (x.shape.length - 1)).map
              (fun c => idx.getD (if c = 0 then k else if c ≤ k then c - 1 else c) 0))
          = x.val (idx.set k i) := by
      intro i
      show x.val ((List.range x.shape.length).map
          (fun c => (i :: (List.range' 1 (x.shape.length - 1)).map
              (fun c2 => idx.getD (if c2 = 0 then k else if c2 ≤ k then c2 - 1 else c2) 0)).getD
            ((frontPerm k x.shape.length).indexOf c) 0)) = _
      congr 1
      rw [← map_range_ite_eq_set idx x.shape.length k i hlen_idx hk]
      apply List.map_congr_left
      intro c hc
      rw [List.mem_range] at hc
      rw [frontPerm_indexOf k x.shape.length c hk hc]
      rcases Nat.lt_trichotomy c k with hck | hck | hck
      · have e1 : ¬(c = k) := by omega
        rw [if_neg e1, if_pos hck, List.getD_cons_succ]
        rw [jtail_getD x.shape.length c k idx (by omega)]
        have e2 : ¬(c + 1 = 0) := by omega
        have e3 : c + 1 ≤ k := by omega
        rw [if_neg e2, if_pos e3]
        have e4 : c + 1 - 1 = c := by omega
        rw [e4, if_neg e1]
      · subst hck
        rw [if_pos rfl, List.getD_cons_zero, if_pos rfl]
      · have e1 : ¬(c = k) := by omega
        have e2 : ¬(c < k) := by omega
        rw [if_neg e1, if_neg e2]
        obtain ⟨q, rfl⟩ : ∃ q, c = q + 1 := ⟨c - 1, by omega⟩
        rw [List.getD_cons_succ]
        rw [jtail_getD x.shape.length q k idx (by omega)]
        have e3 : ¬(q + 1 = 0) := by omega
        have e4 : ¬(q + 1 ≤ k) := by omega
        rw [if_neg e3, if_neg e4, if_neg e1]
    show (List.range ids.length).foldl
        (fun acc i => if ids.getD i 0 = (idx.getD k 0 : Int) then acc + x.val (idx.set k i)
          else acc) 0
      = (backendUnsortedSegmentSum (x.transpose (frontPerm k x.shape.length)) ids n).val
          ((List.range
            (backendUnsortedSegmentSum (x.transpose (frontPerm k x.shape.length)) ids n).shape.length).map
              (fun c => idx.getD ((getUndoAxesPermutation (frontPerm k x.shape.length)).indexOf c) 0))
    rw [hJ]
    show (List.range ids.length).foldl
        (fun acc i => if ids.getD i 0 = (idx.getD k 0 : Int) then acc + x.val (idx.set k i)
          else acc) 0
      = (List.range ids.length).foldl
        (fun acc i => if ids.getD i 0 = (idx.getD k 0 : Int) then acc +
            (x.transpose (frontPerm k x.shape.length)).val
              (i :: (List.range' 1 (x.shape.length - 1)).map
                (fun c => idx.getD (if c = 0 then k else if c ≤ k then c - 1 else c) 0))
          else acc) 0
    apply List.foldl_ext
    intro acc i hi
    by_cases hcond : ids.getD i 0 = (idx.getD k 0 : Int)
    · rw [if_pos hcond, if_pos hcond]
      rw [hinner i]
    · rw [if_neg hcond, if_neg hcond]

theorem segmentSum_axis_conjugation_witness :
    TEq (segmentSumAlongAxis 1 xTwoTwo [0] 1)
      ((backendUnsortedSegmentSum (xTwoTwo.transpose (frontPerm 1 xTwoTwo.shape.length))
          [0] 1).transpose
        (getUndoAxesPermutation (frontPerm 1 xTwoTwo.shape.length))) :=
  segmentSum_axis_conjugation xTwoTwo [0] 1 1 (by decide)
